import Mathlib

/-!
# Verification of the Kaleidoscope front end (lexer, parser, lowering)

Shallow embedding of `src/Kaleidoscope.cpp` (the authoritative translation
unit; `src/lexer.h` contains the identical lexer, `src/parser.h` a stale
fragment of the parser).

Modelling conventions:
* The C character stream (`getchar`) is a `List Char`; the lexer's
  persistent one-character lookahead `LastChar` is an `Option Char`
  (`none` = `EOF`).
* The lexer globals `IdentifierStr` / `NumVal` are functionalised as
  payloads of the token constructors.  `NumVal` is kept as the scanned
  literal string (the `strtod` conversion to `double` is outside the
  verified core; no claim depends on the numeric value, only on which
  literal was scanned).
* `exit(1)` in the malformed-number path of `gettok` is the distinguished
  result `LexOut.fatal`; every recoverable error (`LogError*`) is a
  `none`/null result carried with the post-error state, exactly as the
  C functions return `nullptr` after printing.
* `std::map` (`BinopPrecedence`, `NamedValues`) is an association list;
  `operator[]` default-inserts a zero / null mapped value when the key is
  absent, which we model faithfully (`alGetOrInsert`).  Iteration order of
  the maps is never observed by the program, so the list order is the
  insertion order.
* LLVM `Value*` handles are trees of emitted operations (the program never
  re-inspects a handle, so a value is determined by the operations that
  produced it); `Function*` handles are records carried in the module's
  function list, identified by a unique `id` (pointer identity).
-/

namespace Kaleidoscope

/-! ## Character classification (C `<cctype>`, C locale) -/

def isSpaceC (c : Char) : Bool :=
  c = ' ' || c = '\t' || c = '\n' || c = '\r' || c = '\x0b' || c = '\x0c'

def isAlphaC (c : Char) : Bool :=
  ('a' ≤ c && c ≤ 'z') || ('A' ≤ c && c ≤ 'Z')

def isDigitC (c : Char) : Bool :=
  '0' ≤ c && c ≤ '9'

def isAlnumC (c : Char) : Bool :=
  isAlphaC c || isDigitC c

/-! ## Lexer (`gettok`, Kaleidoscope.cpp lines 31-111) -/

/-- The token kinds of `enum Token`, with the `IdentifierStr` / `NumVal`
globals folded in as payloads.  `ch c` is the "return the character as its
ascii value" case for tokens `[0-255]`. -/
inductive Tok where
  | eof
  | kdef
  | kext
  | ident (s : String)
  | num (s : String)
  | ch (c : Char)
deriving DecidableEq, Repr

/-- Outcome of one `gettok` call: either the process exits (`exit(1)` on a
malformed number) or a token is produced together with the new lookahead
character and remaining stream. -/
inductive LexOut where
  | fatal
  | ok (t : Tok) (last : Option Char) (rest : List Char)
deriving DecidableEq, Repr

/-- `while(isspace(LastChar)) LastChar = getchar();` -/
def skipWS : Option Char → List Char → Option Char × List Char
  | none, rest => (none, rest)
  | some c, rest =>
    if isSpaceC c then
      match rest with
      | [] => (none, [])
      | d :: rs => skipWS (some d) rs
    else (some c, rest)

/-- `while(isalnum((LastChar = getchar()))) acc += LastChar;` —
accumulate while the freshly read character satisfies `p`; the first
non-matching character (or EOF) becomes the new lookahead. -/
def readWhile (p : Char → Bool) : List Char → String → String × Option Char × List Char
  | [], acc => (acc, none, [])
  | c :: rs, acc => if p c then readWhile p rs (acc.push c) else (acc, some c, rs)

/-- The number-scanning do-while loop (lines 75-82): `c` is the current
`LastChar` (already known to be a digit or `'.'` on entry), `hasDec` /
`decErr` the two flags, `acc` the `NumStr` accumulated so far.  Returns
`(NumStr, decimalError, LastChar, rest)`. -/
def readNum : Char → List Char → Bool → Bool → String → String × Bool × Option Char × List Char
  | c, rest, hasDec, decErr, acc =>
    let decErr := decErr || (c = '.' && hasDec)
    let hasDec := hasDec || c = '.'
    let acc := acc.push c
    match rest with
    | [] => (acc, decErr, none, [])
    | d :: rs =>
      if isDigitC d || d = '.' then readNum d rs hasDec decErr acc
      else (acc, decErr, some d, rs)

/-- `do LastChar = getchar(); while(LastChar != EOF && != '\n' && != '\r');` -/
def skipComment : List Char → Option Char × List Char
  | [] => (none, [])
  | c :: rs => if c = '\n' || c = '\r' then (some c, rs) else skipComment rs


/-- `gettok` (lines 47-111), fuel-indexed so that it reduces
definitionally: skip whitespace, then dispatch on the lookahead:
identifier/keyword, number (fatal on a second decimal point), `#` comment
(skip to end of line and recurse), EOF, or raw character.  The only
recursion is the comment branch, which consumes at least one character of
`rest` first, so any fuel exceeding `rest.length` behaves identically
(`gettokF_congr`); the fuel-zero fallback is unreachable from `gettok`. -/
def gettokF : Nat → Option Char → List Char → LexOut
  | 0, _, _ => .ok .eof none []
  | fuel + 1, last, rest =>
    match skipWS last rest with
    | (none, rest') => .ok .eof none rest'
    | (some c, rest') =>
      if isAlphaC c then
        match readWhile isAlnumC rest' (String.singleton c) with
        | (s, l', r') =>
          if s = "def" then .ok .kdef l' r'
          else if s = "extern" then .ok .kext l' r'
          else .ok (.ident s) l' r'
      else if isDigitC c || c = '.' then
        match readNum c rest' false false "" with
        | (s, e, l', r') => if e then .fatal else .ok (.num s) l' r'
      else if c = '#' then
        match skipComment rest' with
        | (none, r') => .ok .eof none r'
        | (some l', r') => gettokF fuel (some l') r'
      else
        match rest' with
        | [] => .ok (.ch c) none []
        | d :: rs => .ok (.ch c) (some d) rs

def gettok (last : Option Char) (rest : List Char) : LexOut :=
  gettokF (rest.length + 1) last rest


/-! ## Association-list maps (`std::map`)

The program never iterates these maps, so only `find` / `operator[]`
semantics are observable; the list keeps insertion order. -/

/-- `map.find`-style lookup: the mapped value, if the key is present. -/
def alFind {κ ν : Type} [DecidableEq κ] : List (κ × ν) → κ → Option ν
  | [], _ => none
  | (k, v) :: m, k' => if k' = k then some v else alFind m k'

/-- `map[k]` read in value position: default-inserts `d` when `k` is
absent; returns the mapped value and the (possibly grown) map. -/
def alGetOrInsert {κ ν : Type} [DecidableEq κ] (m : List (κ × ν)) (k : κ) (d : ν) :
    ν × List (κ × ν) :=
  match alFind m k with
  | some v => (v, m)
  | none => (d, m ++ [(k, d)])

/-- `map[k] = v`: insert-or-assign. -/
def alSet {κ ν : Type} [DecidableEq κ] : List (κ × ν) → κ → ν → List (κ × ν)
  | [], k, v => [(k, v)]
  | (k', v') :: m, k, v =>
    if k = k' then (k', v) :: m else (k', v') :: alSet m k v

/-! ## Abstract syntax tree (lines 121-201) -/

/-- The `ExprAST` hierarchy as a closed variant type.  `num` carries the
scanned literal string (see header note on `NumVal`). -/
inductive Expr where
  | num (v : String)
  | var (name : String)
  | bin (op : Char) (lhs rhs : Expr)
  | call (callee : String) (args : List Expr)
deriving Repr

/-- `PrototypeAST`: function name (already suffix-mangled by the parser)
and parameter names. -/
structure Prototype where
  name : String
  args : List String
deriving DecidableEq, Repr

/-- `FunctionAST`: a prototype plus a body expression. -/
structure FuncAST where
  proto : Prototype
  body : Expr
deriving Repr

/-! ## Parser state (lines 211-234) -/

/-- The parser's mutable globals: `CurTok`, the lexer's lookahead and
stream, `BinopPrecedence`, and the stream of `LogError` messages printed
so far. -/
structure PState where
  cur : Tok
  last : Option Char
  rest : List Char
  prec : List (Char × Int)
  log : List String
deriving DecidableEq, Repr

/-- Result of a parsing function: `fatal` when a `gettok` call inside it
exits the process, `fuelOut` is an artifact of the fuel-indexed embedding
(never reached for sufficient fuel), `res v s` is the C return value
(`none` = `nullptr` after a `LogError`) with the post-call global state. -/
inductive PRes (α : Type) where
  | fatal
  | fuelOut
  | res (val : Option α) (s : PState)
deriving Repr

/-- `getNextToken` (line 214): `CurTok = gettok()`. `none` = the process
exited inside `gettok`. -/
def getNextToken (s : PState) : Option PState :=
  match gettok s.last s.rest with
  | .fatal => none
  | .ok t l r => some { s with cur := t, last := l, rest := r }

/-- `LogError` (line 223): print the message, return `nullptr`. -/
def logError {α : Type} (msg : String) (s : PState) : PRes α :=
  .res none { s with log := s.log ++ [msg] }

/-- `getTokPrecedence` (lines 311-319). `BinopPrecedence[CurTok]` uses
`std::map::operator[]`, which default-inserts `0` when the key is absent —
the returned precedence is then `-1`, but the table has grown. -/
def getTokPrecedence (s : PState) : Int × PState :=
  match s.cur with
  | .ch c =>
    if c.toNat ≤ 127 then
      let (v, m) := alGetOrInsert s.prec c 0
      if v ≤ 0 then (-1, { s with prec := m }) else (v, { s with prec := m })
    else (-1, s)
  | _ => (-1, s)

/-! ## Parser (lines 237-427)

All parsing functions take a fuel argument decremented at every
(mutually) recursive call; `ParsePrimary`'s dispatch passes the token
payload (the C code reads the `NumVal` / `IdentifierStr` global at the
same point). -/

/-- `ParseNumberExpr` (lines 237-241), with `NumVal` passed explicitly. -/
def ParseNumberExpr (v : String) (s : PState) : PRes Expr :=
  match getNextToken s with
  | none => .fatal
  | some s' => .res (some (.num v)) s'

mutual

/-- `ParseParenExpr` (lines 244-255). -/
def ParseParenExpr : Nat → PState → PRes Expr
  | 0, _ => .fuelOut
  | fuel + 1, s =>
    match getNextToken s with   -- eat '('
    | none => .fatal
    | some s1 =>
      match ParseExpression fuel s1 with
      | .fatal => .fatal
      | .fuelOut => .fuelOut
      | .res none s2 => .res none s2
      | .res (some v) s2 =>
        if s2.cur ≠ .ch ')' then logError "expected ')'" s2
        else
          match getNextToken s2 with  -- eat ')'
          | none => .fatal
          | some s3 => .res (some v) s3

/-- `ParseIdentifierExpr` (lines 260-292), with `IdentifierStr` passed
explicitly as `idName`. -/
def ParseIdentifierExpr : Nat → String → PState → PRes Expr
  | 0, _, _ => .fuelOut
  | fuel + 1, idName, s =>
    match getNextToken s with   -- eat identifier
    | none => .fatal
    | some s1 =>
      if s1.cur ≠ .ch '(' then .res (some (.var idName)) s1
      else
        match getNextToken s1 with  -- eat '('
        | none => .fatal
        | some s2 =>
          if s2.cur = .ch ')' then
            match getNextToken s2 with  -- eat ')'
            | none => .fatal
            | some s3 => .res (some (.call idName [])) s3
          else
            match ParseCallArgs fuel [] s2 with
            | .fatal => .fatal
            | .fuelOut => .fuelOut
            | .res none s3 => .res none s3
            | .res (some args) s3 =>
              match getNextToken s3 with  -- eat ')'
              | none => .fatal
              | some s4 => .res (some (.call idName args)) s4

/-- The argument-list `while(true)` loop inside `ParseIdentifierExpr`
(lines 272-285): parse an expression, stop at `')'`, require `','`
otherwise, eat the `','` and continue. -/
def ParseCallArgs : Nat → List Expr → PState → PRes (List Expr)
  | 0, _, _ => .fuelOut
  | fuel + 1, args, s =>
    match ParseExpression fuel s with
    | .fatal => .fatal
    | .fuelOut => .fuelOut
    | .res none s1 => .res none s1
    | .res (some a) s1 =>
      let args := args ++ [a]
      if s1.cur = .ch ')' then .res (some args) s1
      else if s1.cur ≠ .ch ',' then
        logError "Expected ')' or ',' in argument list" s1
      else
        match getNextToken s1 with  -- eat ','
        | none => .fatal
        | some s2 => ParseCallArgs fuel args s2

/-- `ParsePrimary` (lines 298-309). -/
def ParsePrimary : Nat → PState → PRes Expr
  | 0, _ => .fuelOut
  | fuel + 1, s =>
    match s.cur with
    | .ident name => ParseIdentifierExpr fuel name s
    | .num v => ParseNumberExpr v s
    | .ch '(' => ParseParenExpr fuel s
    | _ => logError "Unknown token when expecting an expression" s

/-- `ParseBinOpRHS` (lines 323-354): precedence climbing.  The
`while(true)` loop is the tail-recursive call with the same `exprPrec`. -/
def ParseBinOpRHS : Nat → Int → Expr → PState → PRes Expr
  | 0, _, _, _ => .fuelOut
  | fuel + 1, exprPrec, lhs, s =>
    let (tokPrec, s1) := getTokPrecedence s
    if tokPrec < exprPrec then .res (some lhs) s1
    else
      match s1.cur with
      | .ch binOp =>
        match getNextToken s1 with  -- eat binop
        | none => .fatal
        | some s2 =>
          match ParsePrimary fuel s2 with
          | .fatal => .fatal
          | .fuelOut => .fuelOut
          | .res none s3 => .res none s3
          | .res (some rhs) s3 =>
            let (nextPrec, s4) := getTokPrecedence s3
            if tokPrec < nextPrec then
              match ParseBinOpRHS fuel (tokPrec + 1) rhs s4 with
              | .fatal => .fatal
              | .fuelOut => .fuelOut
              | .res none s5 => .res none s5
              | .res (some rhs') s5 =>
                ParseBinOpRHS fuel exprPrec (.bin binOp lhs rhs') s5
            else
              ParseBinOpRHS fuel exprPrec (.bin binOp lhs rhs) s4
      | _ =>
        -- Unreachable: `tokPrec ≥ exprPrec ≥ 0` forces `s1.cur` to be a
        -- `.ch` token (`getTokPrecedence` yields `-1` otherwise).
        .res (some lhs) s1

/-- `ParseExpression` (lines 358-364). -/
def ParseExpression : Nat → PState → PRes Expr
  | 0, _ => .fuelOut
  | fuel + 1, s =>
    match ParsePrimary fuel s with
    | .fatal => .fatal
    | .fuelOut => .fuelOut
    | .res none s1 => .res none s1
    | .res (some lhs) s1 => ParseBinOpRHS fuel 0 lhs s1

end

/-- The `while(getNextToken() == tok_identifier)` argument-name loop of
`ParsePrototype` (lines 390-392); the first iteration's `getNextToken`
eats the `'('`. -/
def ParseProtoArgs : Nat → List String → PState → PRes (List String)
  | 0, _, _ => .fuelOut
  | fuel + 1, args, s =>
    match getNextToken s with
    | none => .fatal
    | some s1 =>
      match s1.cur with
      | .ident n => ParseProtoArgs fuel (args ++ [n]) s1
      | _ => .res (some args) s1

/-- `ParsePrototype` (lines 368-401): the parsed name is suffixed with
`"_def"` or `"_ext"` according to the introducing keyword before being
used as the function's identity. -/
def ParsePrototype (fuel : Nat) (s : PState) : PRes Prototype :=
  let fnType := s.cur
  match getNextToken s with   -- eat 'extern' or 'def'
  | none => .fatal
  | some s1 =>
    match s1.cur with
    | .ident name =>
      let fnName : String :=
        match fnType with
        | .kdef => name ++ "_def"
        | .kext => name ++ "_ext"
        | _ => name
      match getNextToken s1 with
      | none => .fatal
      | some s2 =>
        if s2.cur ≠ .ch '(' then logError "Expected '(' in protype" s2
        else
          match ParseProtoArgs fuel [] s2 with
          | .fatal => .fatal
          | .fuelOut => .fuelOut
          | .res none s3 => .res none s3
          | .res (some args) s3 =>
            if s3.cur ≠ .ch ')' then logError "Expected ')' in prototype" s3
            else
              match getNextToken s3 with  -- eat ')'
              | none => .fatal
              | some s4 => .res (some ⟨fnName, args⟩) s4
    | _ => logError "Expected function name in prototype" s1

/-- `ParseDefinition` (lines 404-412). -/
def ParseDefinition (fuel : Nat) (s : PState) : PRes FuncAST :=
  match ParsePrototype fuel s with
  | .fatal => .fatal
  | .fuelOut => .fuelOut
  | .res none s1 => .res none s1
  | .res (some proto) s1 =>
    match ParseExpression fuel s1 with
    | .fatal => .fatal
    | .fuelOut => .fuelOut
    | .res none s2 => .res none s2
    | .res (some e) s2 => .res (some ⟨proto, e⟩) s2

/-- `ParseExtern` (lines 415-417). -/
def ParseExtern (fuel : Nat) (s : PState) : PRes Prototype :=
  ParsePrototype fuel s

/-- `ParseTopLevelExpr` (lines 420-427): wrap a bare expression in an
anonymous prototype (empty name, no parameters — note: built directly,
so the name is *not* mangled). -/
def ParseTopLevelExpr (fuel : Nat) (s : PState) : PRes FuncAST :=
  match ParseExpression fuel s with
  | .fatal => .fatal
  | .fuelOut => .fuelOut
  | .res none s1 => .res none s1
  | .res (some e) s1 => .res (some ⟨⟨ "", []⟩, e⟩) s1

/-! ## Code generation (lines 437-551)

LLVM handles: a `Value` is the tree of builder operations that produced
it (handles are never re-inspected by the program); a `Func` is a module
entry with a unique `id` standing for pointer identity.  `body = none`
models an LLVM function with no basic blocks (`empty()`), i.e. a bare
declaration; `body = some v` a completed function returning `v`. -/

inductive Value where
  | constFP (v : String)
  | arg (fid : Nat) (idx : Nat)
  | fadd (l r : Value)
  | fsub (l r : Value)
  | fmul (l r : Value)
  | fdiv (l r : Value)
  | fcmpULT (l r : Value)
  | uitofp (v : Value)
  | call (fid : Nat) (args : List Value)
deriving Repr

structure Func where
  id : Nat
  name : String
  args : List String
  body : Option Value
deriving Repr

/-- The codegen globals: `TheModule` (its list of functions),
`NamedValues`, a counter for fresh function identities, and the stream of
`LogErrorV` messages. -/
structure CGState where
  module : List Func
  namedValues : List (String × Option Value)
  nextId : Nat
  log : List String
deriving Repr

def logCG (msg : String) (st : CGState) : CGState :=
  { st with log := st.log ++ [msg] }

/-- `TheModule->getFunction(name)`: module symbol-table lookup.  Unnamed
functions (empty name, the anonymous top-level prototype) have no symbol
table entry in LLVM, so the empty name never resolves. -/
def getFunction (m : List Func) (name : String) : Option Func :=
  if name = "" then none else m.find? fun f => f.name = name

/-- LLVM name uniquing on `Function::Create`: if the (nonempty) requested
name is taken, a dotted numeric suffix is appended.  (Unreachable in the
scenarios of the claims; modelled as the smallest free suffix.) -/
def freshSuffix (m : List Func) (name : String) : Nat → Nat → String
  | 0, k => name ++ "." ++ toString k
  | fuel + 1, k =>
    let cand := name ++ "." ++ toString k
    if m.any (fun f => f.name = cand) then freshSuffix m name fuel (k + 1) else cand

def freshName (m : List Func) (name : String) : String :=
  if name = "" then ""
  else if m.any (fun f => f.name = name) then freshSuffix m name (m.length + 1) 1
  else name

/-- LLVM `Value::setName` uniquing inside one function: a duplicate
argument name gets a dotted numeric suffix.  (Identity on duplicate-free
parameter lists, `uniquifyArgs_eq_of_nodup`.) -/
def uniquifyPick (seen : List String) (n : String) : Nat → Nat → String
  | 0, k => n ++ "." ++ toString k
  | fuel + 1, k =>
    let cand := n ++ "." ++ toString k
    if cand ∈ seen then uniquifyPick seen n fuel (k + 1) else cand

def uniquifyGo : List String → List String → List String
  | _, [] => []
  | seen, n :: ns =>
    let m := if n ∈ seen then uniquifyPick seen n (seen.length + 1) 1 else n
    m :: uniquifyGo (seen ++ [m]) ns

def uniquifyArgs (names : List String) : List String :=
  uniquifyGo [] names

/-- `PrototypeAST::codegen` (lines 503-515): create the function in the
module and set its argument names.  It never returns null. -/
def protoCodegen (p : Prototype) (st : CGState) : Func × CGState :=
  let f : Func := ⟨st.nextId, freshName st.module p.name, uniquifyArgs p.args, none⟩
  (f, { st with module := st.module ++ [f], nextId := st.nextId + 1 })

mutual

/-- `codegen` of the four `ExprAST` subclasses (lines 447-501). -/
def exprCodegen : Expr → CGState → Option Value × CGState
  | .num v, st =>
    -- NumberExprAST::codegen — cannot fail
    (some (.constFP v), st)
  | .var name, st =>
    -- VariableExprAST::codegen: `NamedValues[Name]` default-inserts a
    -- null mapping when the name is absent
    let (v, nv) := alGetOrInsert st.namedValues name none
    let st := { st with namedValues := nv }
    match v with
    | none => (none, logCG "Unknown variable name" st)
    | some val => (some val, st)
  | .bin op l r, st =>
    -- BinaryExprAST::codegen: both operands are lowered before the null
    -- check (`L` failing does not prevent lowering `R`)
    let (lv, st1) := exprCodegen l st
    let (rv, st2) := exprCodegen r st1
    match lv, rv with
    | some L, some R =>
      match op with
      | '+' => (some (.fadd L R), st2)
      | '-' => (some (.fsub L R), st2)
      | '*' => (some (.fmul L R), st2)
      | '/' => (some (.fdiv L R), st2)
      | '<' => (some (.uitofp (.fcmpULT L R)), st2)
      | _ => (none, logCG "invalid binary operator" st2)
    | _, _ => (none, st2)
  | .call callee args, st =>
    -- CallExprAST::codegen: the callee name is looked up *as written*
    -- (no suffix mangling happens at call sites)
    match getFunction st.module callee with
    | none => (none, logCG "Unknown function referenced" st)
    | some f =>
      if f.args.length ≠ args.length then
        (none, logCG "Incorrect # arguments passed" st)
      else
        match argsCodegen args st with
        | (none, st1) => (none, st1)
        | (some vs, st1) => (some (.call f.id vs), st1)

/-- The argument-lowering loop of `CallExprAST::codegen` (lines 493-498):
left to right, stopping at the first failure. -/
def argsCodegen : List Expr → CGState → Option (List Value) × CGState
  | [], st => (some [], st)
  | a :: more, st =>
    match exprCodegen a st with
    | (none, st1) => (none, st1)
    | (some v, st1) =>
      match argsCodegen more st1 with
      | (none, st2) => (none, st2)
      | (some vs, st2) => (some (v :: vs), st2)

end

/-- `NamedValues.clear()` followed by `NamedValues[Arg.getName()] = &Arg`
for each argument (lines 533-536; the same `Idx`-counter loop as
`PrototypeAST::codegen` uses for `setName`). -/
def argMapGo (fid : Nat) : Nat → List String → List (String × Option Value) →
    List (String × Option Value)
  | _, [], nv => nv
  | i, n :: ns, nv => argMapGo fid (i + 1) ns (alSet nv n (some (.arg fid i)))

def argMapOf (f : Func) : List (String × Option Value) :=
  argMapGo f.id 0 f.args []

/-- The part of `FunctionAST::codegen` (lines 527-550) after `TheFunction`
has been obtained: redefinition check, entry block, symbol-table reset,
body lowering, and return-or-erase. -/
def functionCodegenWith (theFunc : Func) (fnBody : Expr) (st1 : CGState) :
    Option Func × CGState :=
  if theFunc.body.isSome then
    -- `if(!TheFunction->empty())`
    (none, logCG "Function cannot be redefined." st1)
  else
    -- BasicBlock::Create / SetInsertPoint: insertion-point bookkeeping,
    -- not observable in this model
    let st2 := { st1 with namedValues := argMapOf theFunc }
    match exprCodegen fnBody st2 with
    | (some retVal, st3) =>
      -- CreateRet; verifyFunction's result is not inspected by the code
      let f' : Func := { theFunc with body := some retVal }
      (some f', { st3 with
        module := st3.module.map fun g => if g.id = theFunc.id then f' else g })
    | (none, st3) =>
      -- "Error reading body, remove function."  (eraseFromParent)
      (none, { st3 with module := st3.module.filter fun g => g.id ≠ theFunc.id })

/-- `FunctionAST::codegen` (lines 517-551): reuse an existing function of
the same (mangled) name, else declare one from the prototype. -/
def functionCodegen (fn : FuncAST) (st : CGState) : Option Func × CGState :=
  match getFunction st.module fn.proto.name with
  | some f => functionCodegenWith f fn.body st
  | none =>
    match protoCodegen fn.proto st with
    | (f, st1) => functionCodegenWith f fn.body st1

/-! ## Top-level driver (lines 561-668) -/

/-- Driver state: parser globals, codegen globals, and the `std::cout`
"Parsed a ..." announcements. -/
structure DState where
  ps : PState
  cg : CGState
  out : List String
deriving Repr

inductive DRes where
  | fatal
  | fuelOut
  | ok (d : DState)
deriving Repr

/-- `HandleDefinition` (lines 571-582).  Only a *parse* failure skips a
token; a codegen failure does not. -/
def HandleDefinition (fuel : Nat) (d : DState) : DRes :=
  match ParseDefinition fuel d.ps with
  | .fatal => .fatal
  | .fuelOut => .fuelOut
  | .res (some fnAST) ps' =>
    match functionCodegen fnAST d.cg with
    | (some _, cg') => .ok ⟨ps', cg', d.out ++ ["Parsed a function definition:"]⟩
    | (none, cg') => .ok ⟨ps', cg', d.out⟩
  | .res none ps' =>
    -- "Skip token for error recovery."
    match getNextToken ps' with
    | none => .fatal
    | some ps'' => .ok ⟨ps'', d.cg, d.out⟩

/-- `HandleExtern` (lines 584-595).  `PrototypeAST::codegen` never fails,
so a successful parse always announces the extern. -/
def HandleExtern (fuel : Nat) (d : DState) : DRes :=
  match ParseExtern fuel d.ps with
  | .fatal => .fatal
  | .fuelOut => .fuelOut
  | .res (some proto) ps' =>
    let (_, cg') := protoCodegen proto d.cg
    .ok ⟨ps', cg', d.out ++ ["Parsed an extern:"]⟩
  | .res none ps' =>
    match getNextToken ps' with
    | none => .fatal
    | some ps'' => .ok ⟨ps'', d.cg, d.out⟩

/-- `HandleTopLevelExpression` (lines 597-612): on successful lowering the
anonymous function is printed and then erased from the module. -/
def HandleTopLevelExpression (fuel : Nat) (d : DState) : DRes :=
  match ParseTopLevelExpr fuel d.ps with
  | .fatal => .fatal
  | .fuelOut => .fuelOut
  | .res (some fnAST) ps' =>
    match functionCodegen fnAST d.cg with
    | (some fnIR, cg') =>
      let cg'' := { cg' with module := cg'.module.filter fun g => g.id ≠ fnIR.id }
      .ok ⟨ps', cg'', d.out ++ ["Parsed a top-level expression:"]⟩
    | (none, cg') => .ok ⟨ps', cg', d.out⟩
  | .res none ps' =>
    match getNextToken ps' with
    | none => .fatal
    | some ps'' => .ok ⟨ps'', d.cg, d.out⟩

/-- `MainLoop` (lines 615-635). -/
def MainLoop : Nat → DState → DRes
  | 0, _ => .fuelOut
  | fuel + 1, d =>
    match d.ps.cur with
    | .eof => .ok d
    | .ch ';' =>
      match getNextToken d.ps with
      | none => .fatal
      | some ps' => MainLoop fuel ⟨ps', d.cg, d.out⟩
    | .kdef =>
      match HandleDefinition fuel d with
      | .fatal => .fatal
      | .fuelOut => .fuelOut
      | .ok d' => MainLoop fuel d'
    | .kext =>
      match HandleExtern fuel d with
      | .fatal => .fatal
      | .fuelOut => .fuelOut
      | .ok d' => MainLoop fuel d'
    | _ =>
      match HandleTopLevelExpression fuel d with
      | .fatal => .fatal
      | .fuelOut => .fuelOut
      | .ok d' => MainLoop fuel d'

/-- The precedence table installed by `main` (lines 648-652), in the
order produced by the five `operator[]` assignments. -/
def initPrec : List (Char × Int) :=
  [('<', 10), ('+', 20), ('-', 20), ('*', 40), ('/', 40)]

def initCG : CGState := ⟨[], [], 0, []⟩

/-- The parser state right after `main` primes the first token over the
given input (`LastChar` statically initialised to `' '`, `CurTok`
zero-initialised).  `none` = `gettok` already exited the process. -/
def primedPState (input : String) : Option PState :=
  getNextToken ⟨.ch (Char.ofNat 0), some ' ', input.data, initPrec, []⟩

/-- `main` (lines 645-668): install the precedence table, prime the first
token, initialise the module, run `MainLoop`.  The final state's module is
what `TheModule->print` renders at exit. -/
def runInput (fuel : Nat) (input : String) : DRes :=
  match primedPState input with
  | none => .fatal
  | some ps => MainLoop fuel ⟨ps, initCG, []⟩

/-! ## Test harness

Small wrappers used to state concrete end-to-end facts. -/

/-- Parse one expression from a fresh input (as the driver would for a
top-level expression), returning the AST. -/
def parseExpressionFrom (fuel : Nat) (input : String) : Option Expr :=
  match primedPState input with
  | none => none
  | some s =>
    match ParseExpression fuel s with
    | .res v _ => v
    | _ => none

/-- Like `parseExpressionFrom`, but returning the parser state after the
parse (in particular the precedence table). -/
def parseExprFinalState (fuel : Nat) (input : String) : Option PState :=
  match primedPState input with
  | none => none
  | some s =>
    match ParseExpression fuel s with
    | .res _ s' => some s'
    | _ => none

/-- The driver state at end of input, when the run neither exited the
process nor ran out of fuel. -/
def runFinal (fuel : Nat) (input : String) : Option DState :=
  match runInput fuel input with
  | .ok d => some d
  | _ => none

/-! ## Invariant-stating definitions

`PrecExt p q`: the precedence table `q` extends `p` by nothing but
default-inserted zero entries.  `NVExt nv nv2`: the symbol table `nv2`
extends `nv` by nothing but default-inserted null entries.  `CGFrame`:
expression lowering touches neither the module nor the id counter and
extends the symbol table only in the `NVExt` sense.  `countDots` /
`malformedNumberAhead`: the specification side of claim C8. -/

def PrecExt (p p' : List (Char × Int)) : Prop :=
  ∀ c, alFind p' c = alFind p c ∨ (alFind p c = none ∧ alFind p' c = some 0)

def NVExt (nv nv' : List (String × Option Value)) : Prop :=
  ∀ n, alFind nv' n = alFind nv n ∨ (alFind nv n = none ∧ alFind nv' n = some none)

def CGFrame (st st' : CGState) : Prop :=
  st'.module = st.module ∧ st'.nextId = st.nextId ∧ NVExt st.namedValues st'.namedValues

def countDots (s : String) : Nat := s.data.countP (fun c => c = '.')

/-- The specification side of claim C8, as its own definition: after
skipping whitespace and transparent comments, the next token is a numeric
literal containing more than one decimal point.  (Same fuel discipline as
`gettokF`.) -/
def malformedNumberAheadF : Nat → Option Char → List Char → Bool
  | 0, _, _ => false
  | fuel + 1, last, rest =>
    match skipWS last rest with
    | (none, _) => false
    | (some c, rest') =>
      if isAlphaC c then false
      else if isDigitC c || c = '.' then
        decide (2 ≤ countDots (readNum c rest' false false "").1)
      else if c = '#' then
        match skipComment rest' with
        | (none, _) => false
        | (some l', r') => malformedNumberAheadF fuel (some l') r'
      else false

def malformedNumberAhead (last : Option Char) (rest : List Char) : Bool :=
  malformedNumberAheadF (rest.length + 1) last rest

/-! ## Lexer lemmas -/

theorem skipWS_length_le : ∀ (l : Option Char) (r : List Char),
    (skipWS l r).2.length ≤ r.length := by
  intro l r
  induction r generalizing l with
  | nil => cases l with
    | none => simp [skipWS]
    | some c => simp only [skipWS]; split <;> simp
  | cons d rs ih =>
    cases l with
    | none => simp [skipWS]
    | some c =>
      simp only [skipWS]
      split
      · exact le_trans (ih (some d)) (Nat.le_succ _)
      · simp

theorem skipComment_some_length_lt : ∀ (r : List Char) (l' : Char) (r' : List Char),
    skipComment r = (some l', r') → r'.length < r.length := by
  intro r
  induction r with
  | nil => intro l' r' h; simp [skipComment] at h
  | cons c rs ih =>
    intro l' r' h
    simp only [skipComment] at h
    split at h
    · cases h; simp
    · exact Nat.lt_trans (ih _ _ h) (Nat.lt_succ_self _)

theorem gettokF_congr : ∀ (f₁ f₂ : Nat) (l : Option Char) (r : List Char),
    r.length < f₁ → r.length < f₂ → gettokF f₁ l r = gettokF f₂ l r := by
  intro f₁
  induction f₁ with
  | zero => intro f₂ l r h1; omega
  | succ f₁ ih =>
    intro f₂ l r h1 h2
    cases f₂ with
    | zero => omega
    | succ f₂ =>
      simp only [gettokF]
      have hWS := skipWS_length_le l r
      cases hsw : skipWS l r with
      | mk lc rest' =>
        rw [hsw] at hWS
        cases lc with
        | none => rfl
        | some c =>
          have hWS' : rest'.length ≤ r.length := hWS
          simp only []
          split
          · rfl
          · split
            · rfl
            · split
              · cases hsc : skipComment rest' with
                | mk lc2 r' =>
                  cases lc2 with
                  | none => rfl
                  | some l' =>
                    have := skipComment_some_length_lt rest' l' r' hsc
                    exact ih f₂ (some l') r' (by omega) (by omega)
              · rfl

/-! ## Helper lemmas: association lists -/

theorem alFind_append {κ ν : Type} [DecidableEq κ] (m₁ m₂ : List (κ × ν)) (k : κ) :
    alFind (m₁ ++ m₂) k =
      match alFind m₁ k with
      | some v => some v
      | none => alFind m₂ k := by
  induction m₁ with
  | nil => simp [alFind]
  | cons e m ih =>
    obtain ⟨k', v'⟩ := e
    by_cases h : k = k' <;> simp [alFind, h, ih]

theorem alFind_singleton {κ ν : Type} [DecidableEq κ] (k k' : κ) (v : ν) :
    alFind [(k', v)] k = if k = k' then some v else none := by
  by_cases h : k = k' <;> simp [alFind, h]

theorem alSet_absent {κ ν : Type} [DecidableEq κ] (m : List (κ × ν)) (k : κ) (v : ν)
    (h : alFind m k = none) : alSet m k v = m ++ [(k, v)] := by
  induction m with
  | nil => simp [alSet]
  | cons e m ih =>
    obtain ⟨k', v'⟩ := e
    simp only [alFind] at h
    by_cases hk : k = k'
    · simp [hk] at h
    · simp only [alSet, if_neg hk, List.cons_append, List.cons.injEq, true_and]
      exact ih (by simpa [hk] using h)

/-! ## Helper lemmas: parser state plumbing -/

/-- `getNextToken` only refreshes the token/stream fields. -/
theorem getNextToken_frame (s s' : PState) (h : getNextToken s = some s') :
    s'.prec = s.prec ∧ s'.log = s.log := by
  unfold getNextToken at h
  cases hg : gettok s.last s.rest <;> rw [hg] at h
  · exact absurd h (by simp)
  · cases h; exact ⟨rfl, rfl⟩

theorem logError_inv {α : Type} (msg : String) (s : PState) (v : Option α) (s' : PState)
    (h : logError msg s = PRes.res v s') :
    v = none ∧ s' = { s with log := s.log ++ [msg] } := by
  unfold logError at h
  cases h
  exact ⟨rfl, rfl⟩

/-! ## Helper lemmas: the precedence table during parsing (claim C3)

`PrecExt p p'` says `p'` extends `p` by nothing but default-inserted
zero entries: every existing entry keeps its value, and any new key maps
to `0` ("not a binary operator"). -/


theorem PrecExt_refl (p : List (Char × Int)) : PrecExt p p := fun _ => Or.inl rfl

theorem PrecExt_trans {p q r : List (Char × Int)} (h₁ : PrecExt p q) (h₂ : PrecExt q r) :
    PrecExt p r := by
  intro c
  rcases h₂ c with h | ⟨hq, hr⟩
  · rcases h₁ c with h' | ⟨hp, hq'⟩
    · exact Or.inl (h.trans h')
    · exact Or.inr ⟨hp, h ▸ hq'⟩
  · rcases h₁ c with h' | ⟨hp, hq'⟩
    · exact Or.inr ⟨h' ▸ hq, hr⟩
    · rw [hq'] at hq; cases hq

/-- The precedence lookup itself: existing entries survive, and at most
one zero entry (for the looked-up character) is added. -/
theorem getTokPrecedence_precExt (s : PState) :
    PrecExt s.prec ((getTokPrecedence s).2).prec := by
  unfold getTokPrecedence
  cases s.cur with
  | ch c =>
    by_cases hA : c.toNat ≤ 127
    · simp only [hA, if_true]
      unfold alGetOrInsert
      cases hf : alFind s.prec c with
      | some v =>
        by_cases hv : v ≤ 0 <;> simp [hv, PrecExt_refl]
      | none =>
        by_cases hv : (0 : Int) ≤ 0
        · simp only [hv, if_true]
          intro d
          rw [alFind_append]
          cases hfd : alFind s.prec d with
          | some w => exact Or.inl rfl
          | none =>
            rw [alFind_singleton]
            by_cases hd : d = c
            · subst hd; exact Or.inr ⟨rfl, by simp⟩
            · simp [hd]
        · simp at hv
    · simp [hA, PrecExt_refl]
  | eof => exact PrecExt_refl _
  | kdef => exact PrecExt_refl _
  | kext => exact PrecExt_refl _
  | ident n => exact PrecExt_refl _
  | num n => exact PrecExt_refl _

/-- The state component of the precedence lookup changes only `prec`. -/
theorem getTokPrecedence_frame (s : PState) :
    ((getTokPrecedence s).2).cur = s.cur ∧ ((getTokPrecedence s).2).last = s.last ∧
    ((getTokPrecedence s).2).rest = s.rest ∧ ((getTokPrecedence s).2).log = s.log := by
  unfold getTokPrecedence
  cases hcur : s.cur <;> simp [hcur]
  case ch c =>
    by_cases hA : c.toNat ≤ 127
    · simp only [hA, if_true]
      cases alGetOrInsert s.prec c 0 with
      | mk v m => by_cases hv : v ≤ 0 <;> simp [hv]
    · simp [hA, hcur]

theorem precExt_of_eq {s s' : PState} (h : s'.prec = s.prec) : PrecExt s.prec s'.prec := by
  rw [h]; exact PrecExt_refl _

theorem ParseNumberExpr_prec (v : String) (s : PState) (w : Option Expr) (s' : PState)
    (h : ParseNumberExpr v s = .res w s') : s'.prec = s.prec := by
  unfold ParseNumberExpr at h
  cases hn : getNextToken s <;> rw [hn] at h
  · simp at h
  · cases h; exact (getNextToken_frame _ _ hn).1

/-- No parsing operation removes or rewrites a precedence entry; the only
change any of them can make is the default-inserted zero entry of a
lookup (claim C3).  Joint statement for the mutually recursive expression
parsers, by induction on fuel. -/
theorem parse_precExt : ∀ fuel : Nat,
    (∀ s v s', ParseParenExpr fuel s = .res v s' → PrecExt s.prec s'.prec)
    ∧ (∀ idName s v s', ParseIdentifierExpr fuel idName s = .res v s' → PrecExt s.prec s'.prec)
    ∧ (∀ args s v s', ParseCallArgs fuel args s = .res v s' → PrecExt s.prec s'.prec)
    ∧ (∀ s v s', ParsePrimary fuel s = .res v s' → PrecExt s.prec s'.prec)
    ∧ (∀ ep lhs s v s', ParseBinOpRHS fuel ep lhs s = .res v s' → PrecExt s.prec s'.prec)
    ∧ (∀ s v s', ParseExpression fuel s = .res v s' → PrecExt s.prec s'.prec) := by
  intro fuel
  induction fuel with
  | zero =>
    refine ⟨fun s v s' h => ?_, fun i s v s' h => ?_, fun a s v s' h => ?_,
      fun s v s' h => ?_, fun ep lhs s v s' h => ?_, fun s v s' h => ?_⟩ <;>
      simp [ParseParenExpr, ParseIdentifierExpr, ParseCallArgs, ParsePrimary,
        ParseBinOpRHS, ParseExpression] at h
  | succ fuel ih =>
    obtain ⟨ihParen, ihIdent, ihArgs, ihPrim, ihBin, ihExpr⟩ := ih
    refine ⟨?_, ?_, ?_, ?_, ?_, ?_⟩
    · -- ParseParenExpr
      intro s v s' h
      simp only [ParseParenExpr] at h
      split at h
      · simp at h
      case _ s1 hn =>
        have e1 : s1.prec = s.prec := (getNextToken_frame _ _ hn).1
        split at h
        · simp at h
        · simp at h
        case _ s2 heq =>
          cases h
          rw [← e1]; exact ihExpr _ _ _ heq
        case _ w s2 heq =>
          have e2 : PrecExt s1.prec s2.prec := ihExpr _ _ _ heq
          rw [e1] at e2
          split at h
          · obtain ⟨-, rfl⟩ := logError_inv _ _ _ _ h
            exact e2
          · split at h
            · simp at h
            case _ s3 hn2 =>
              cases h
              have e3 : s'.prec = s2.prec := (getNextToken_frame _ _ hn2).1
              exact PrecExt_trans e2 (precExt_of_eq e3)
    · -- ParseIdentifierExpr
      intro idName s v s' h
      simp only [ParseIdentifierExpr] at h
      split at h
      · simp at h
      case _ s1 hn =>
        have e1 : s1.prec = s.prec := (getNextToken_frame _ _ hn).1
        split at h
        · cases h; exact precExt_of_eq e1
        · split at h
          · simp at h
          case _ s2 hn2 =>
            have e2 : s2.prec = s1.prec := (getNextToken_frame _ _ hn2).1
            split at h
            · split at h
              · simp at h
              case _ s3 hn3 =>
                cases h
                have e3 : s'.prec = s2.prec := (getNextToken_frame _ _ hn3).1
                exact precExt_of_eq (by rw [e3, e2, e1])
            · split at h
              · simp at h
              · simp at h
              case _ s3 heq =>
                cases h
                have e3 : PrecExt s2.prec s'.prec := ihArgs _ _ _ _ heq
                rw [e2, e1] at e3
                exact e3
              case _ args s3 heq =>
                have e3 : PrecExt s2.prec s3.prec := ihArgs _ _ _ _ heq
                rw [e2, e1] at e3
                split at h
                · simp at h
                case _ s4 hn4 =>
                  cases h
                  have e4 : s'.prec = s3.prec := (getNextToken_frame _ _ hn4).1
                  exact PrecExt_trans e3 (precExt_of_eq e4)
    · -- ParseCallArgs
      intro args s v s' h
      simp only [ParseCallArgs] at h
      split at h
      · simp at h
      · simp at h
      case _ s1 heq =>
        cases h
        exact ihExpr _ _ _ heq
      case _ a s1 heq =>
        have e1 : PrecExt s.prec s1.prec := ihExpr _ _ _ heq
        split at h
        · cases h; exact e1
        · split at h
          · obtain ⟨-, rfl⟩ := logError_inv _ _ _ _ h
            exact e1
          · split at h
            · simp at h
            case _ s2 hn =>
              have e2 : s2.prec = s1.prec := (getNextToken_frame _ _ hn).1
              have e3 : PrecExt s2.prec s'.prec := ihArgs _ _ _ _ h
              rw [e2] at e3
              exact PrecExt_trans e1 e3
    · -- ParsePrimary
      intro s v s' h
      simp only [ParsePrimary] at h
      split at h
      · exact ihIdent _ _ _ _ h
      · exact precExt_of_eq (ParseNumberExpr_prec _ _ _ _ h)
      · exact ihParen _ _ _ h
      · obtain ⟨-, rfl⟩ := logError_inv _ _ _ _ h
        exact PrecExt_refl _
    · -- ParseBinOpRHS
      intro ep lhs s v s' h
      simp only [ParseBinOpRHS] at h
      have eT : PrecExt s.prec ((getTokPrecedence s).2).prec := getTokPrecedence_precExt s
      cases hg : getTokPrecedence s with
      | mk tokPrec s1 =>
        rw [hg] at h eT
        simp only [] at h eT
        split at h
        · cases h; exact eT
        · split at h
          · split at h
            · simp at h
            case _ s2 hn =>
              have e2 : s2.prec = s1.prec := (getNextToken_frame _ _ hn).1
              split at h
              · simp at h
              · simp at h
              case _ s3 heq =>
                cases h
                have e3 : PrecExt s2.prec s'.prec := ihPrim _ _ _ heq
                rw [e2] at e3
                exact PrecExt_trans eT e3
              case _ rhs s3 heq =>
                have e3 : PrecExt s2.prec s3.prec := ihPrim _ _ _ heq
                rw [e2] at e3
                have eT2 : PrecExt s3.prec ((getTokPrecedence s3).2).prec :=
                  getTokPrecedence_precExt s3
                cases hg2 : getTokPrecedence s3 with
                | mk nextPrec s4 =>
                  rw [hg2] at h eT2
                  simp only [] at h eT2
                  have base : PrecExt s.prec s4.prec := PrecExt_trans (PrecExt_trans eT e3) eT2
                  split at h
                  · split at h
                    · simp at h
                    · simp at h
                    case _ s5 heq2 =>
                      cases h
                      have e5 : PrecExt s4.prec s'.prec := ihBin _ _ _ _ _ heq2
                      exact PrecExt_trans base e5
                    case _ rhs2 s5 heq2 =>
                      have e5 : PrecExt s4.prec s5.prec := ihBin _ _ _ _ _ heq2
                      have e6 : PrecExt s5.prec s'.prec := ihBin _ _ _ _ _ h
                      exact PrecExt_trans (PrecExt_trans base e5) e6
                  · have e6 : PrecExt s4.prec s'.prec := ihBin _ _ _ _ _ h
                    exact PrecExt_trans base e6
          · cases h; exact eT
    · -- ParseExpression
      intro s v s' h
      simp only [ParseExpression] at h
      split at h
      · simp at h
      · simp at h
      case _ s1 heq =>
        cases h
        exact ihPrim _ _ _ heq
      case _ lhs s1 heq =>
        exact PrecExt_trans (ihPrim _ _ _ heq) (ihBin _ _ _ _ _ h)

/-- The prototype path never consults the precedence table at all. -/
theorem ParseProtoArgs_prec : ∀ (fuel : Nat) (args : List String) (s : PState)
    (v : Option (List String)) (s' : PState),
    ParseProtoArgs fuel args s = .res v s' → s'.prec = s.prec := by
  intro fuel
  induction fuel with
  | zero => intro args s v s' h; simp [ParseProtoArgs] at h
  | succ fuel ih =>
    intro args s v s' h
    simp only [ParseProtoArgs] at h
    split at h
    · simp at h
    case _ s1 hn =>
      have e1 : s1.prec = s.prec := (getNextToken_frame _ _ hn).1
      split at h
      case _ n hc =>
        rw [ih _ _ _ _ h, e1]
      · cases h; exact e1

theorem ParsePrototype_prec (fuel : Nat) (s : PState) (v : Option Prototype) (s' : PState)
    (h : ParsePrototype fuel s = .res v s') : s'.prec = s.prec := by
  unfold ParsePrototype at h
  split at h
  · simp at h
  case _ s1 hn =>
    have e1 : s1.prec = s.prec := (getNextToken_frame _ _ hn).1
    split at h
    case _ name hc =>
      split at h
      · simp at h
      case _ s2 hn2 =>
        have e2 : s2.prec = s1.prec := (getNextToken_frame _ _ hn2).1
        split at h
        · obtain ⟨-, rfl⟩ := logError_inv _ _ _ _ h
          rw [e2, e1]
        · split at h
          · simp at h
          · simp at h
          case _ s3 heq =>
            cases h
            rw [ParseProtoArgs_prec _ _ _ _ _ heq, e2, e1]
          case _ args s3 heq =>
            have e3 : s3.prec = s2.prec := ParseProtoArgs_prec _ _ _ _ _ heq
            split at h
            · obtain ⟨-, rfl⟩ := logError_inv _ _ _ _ h
              rw [e3, e2, e1]
            · split at h
              · simp at h
              case _ s4 hn4 =>
                cases h
                rw [(getNextToken_frame _ _ hn4).1, e3, e2, e1]
    case _ hc =>
      obtain ⟨-, rfl⟩ := logError_inv _ _ _ _ h
      exact e1

theorem ParseDefinition_precExt (fuel : Nat) (s : PState) (v : Option FuncAST) (s' : PState)
    (h : ParseDefinition fuel s = .res v s') : PrecExt s.prec s'.prec := by
  unfold ParseDefinition at h
  split at h
  · simp at h
  · simp at h
  case _ s1 heq =>
    cases h
    exact precExt_of_eq (ParsePrototype_prec _ _ _ _ heq)
  case _ proto s1 heq =>
    have e1 : s1.prec = s.prec := ParsePrototype_prec _ _ _ _ heq
    have hExpr := (parse_precExt fuel).2.2.2.2.2
    split at h
    · simp at h
    · simp at h
    case _ s2 heq2 =>
      cases h
      have := hExpr _ _ _ heq2
      rw [e1] at this
      exact this
    case _ e s2 heq2 =>
      cases h
      have := hExpr _ _ _ heq2
      rw [e1] at this
      exact this

theorem ParseExtern_precExt (fuel : Nat) (s : PState) (v : Option Prototype) (s' : PState)
    (h : ParseExtern fuel s = .res v s') : PrecExt s.prec s'.prec := by
  unfold ParseExtern at h
  exact precExt_of_eq (ParsePrototype_prec _ _ _ _ h)

theorem ParseTopLevelExpr_precExt (fuel : Nat) (s : PState) (v : Option FuncAST) (s' : PState)
    (h : ParseTopLevelExpr fuel s = .res v s') : PrecExt s.prec s'.prec := by
  unfold ParseTopLevelExpr at h
  have hExpr := (parse_precExt fuel).2.2.2.2.2
  split at h
  · simp at h
  · simp at h
  case _ s1 heq =>
    cases h
    exact hExpr _ _ _ heq
  case _ e s1 heq =>
    cases h
    exact hExpr _ _ _ heq

/-! ## Helper lemmas: codegen state during expression lowering
(claims C2, C5, C10)

`NVExt nv nv'` says the symbol table `nv'` extends `nv` by nothing but
default-inserted null entries (`NamedValues[name]` on a missing name);
`CGFrame st st'` says expression lowering from `st` may only append log
messages and extend the symbol table that way — in particular it never
touches the module or creates functions. -/


theorem NVExt_refl (nv : List (String × Option Value)) : NVExt nv nv := fun _ => Or.inl rfl

theorem NVExt_trans {p q r : List (String × Option Value)} (h₁ : NVExt p q) (h₂ : NVExt q r) :
    NVExt p r := by
  intro n
  rcases h₂ n with h | ⟨hq, hr⟩
  · rcases h₁ n with h' | ⟨hp, hq'⟩
    · exact Or.inl (h.trans h')
    · exact Or.inr ⟨hp, h ▸ hq'⟩
  · rcases h₁ n with h' | ⟨hp, hq'⟩
    · exact Or.inr ⟨h' ▸ hq, hr⟩
    · rw [hq'] at hq; cases hq

theorem NVExt_append_none {nv : List (String × Option Value)} {n : String}
    (h : alFind nv n = none) : NVExt nv (nv ++ [(n, none)]) := by
  intro m
  rw [alFind_append]
  cases hm : alFind nv m with
  | some v => exact Or.inl rfl
  | none =>
    rw [alFind_singleton]
    by_cases hmn : m = n
    · subst hmn; exact Or.inr ⟨rfl, by simp⟩
    · simp [hmn]


theorem CGFrame_refl (st : CGState) : CGFrame st st := ⟨rfl, rfl, NVExt_refl _⟩

theorem CGFrame_trans {s t u : CGState} (h₁ : CGFrame s t) (h₂ : CGFrame t u) : CGFrame s u :=
  ⟨h₂.1.trans h₁.1, h₂.2.1.trans h₁.2.1, NVExt_trans h₁.2.2 h₂.2.2⟩

theorem CGFrame_logCG (msg : String) (st : CGState) : CGFrame st (logCG msg st) :=
  ⟨rfl, rfl, NVExt_refl _⟩

theorem alGetOrInsert_none_cases {nv nv' : List (String × Option Value)} {n : String}
    (h : alGetOrInsert nv n none = (none, nv')) :
    (alFind nv n = some none ∧ nv' = nv) ∨ (alFind nv n = none ∧ nv' = nv ++ [(n, none)]) := by
  unfold alGetOrInsert at h
  cases hf : alFind nv n with
  | some v => rw [hf] at h; cases h; exact Or.inl ⟨rfl, rfl⟩
  | none => rw [hf] at h; cases h; exact Or.inr ⟨rfl, rfl⟩

theorem alGetOrInsert_some_cases {nv nv' : List (String × Option Value)} {n : String} {v : Value}
    (h : alGetOrInsert nv n none = (some v, nv')) : alFind nv n = some (some v) ∧ nv' = nv := by
  unfold alGetOrInsert at h
  cases hf : alFind nv n with
  | some w => rw [hf] at h; cases h; exact ⟨rfl, rfl⟩
  | none => rw [hf] at h; cases h

/-- Expression lowering never touches the module or the id counter, and
can change the symbol table only by default-inserting null entries. -/
theorem exprCodegen_frame : ∀ (e : Expr) (st : CGState), CGFrame st (exprCodegen e st).2 := by
  refine exprCodegen.induct (fun e st => CGFrame st (exprCodegen e st).2)
    (fun es st => CGFrame st (argsCodegen es st).2)
    ?_ ?_ ?_ ?_ ?_ ?_ ?_ ?_ ?_ ?_ ?_ ?_ ?_ ?_ ?_ ?_ ?_ ?_
  · intro v st
    simp only [exprCodegen]
    exact CGFrame_refl st
  · intro name st nv h
    simp only [exprCodegen, h]
    rcases alGetOrInsert_none_cases h with ⟨hf, rfl⟩ | ⟨hf, rfl⟩
    · exact ⟨rfl, rfl, NVExt_refl _⟩
    · exact ⟨rfl, rfl, NVExt_append_none hf⟩
  · intro name st nv val h
    simp only [exprCodegen, h]
    obtain ⟨hf, rfl⟩ := alGetOrInsert_some_cases h
    exact CGFrame_refl st
  · intro l r st st2 st3 L R hl hr ihl ihr
    rw [hl] at ihl; rw [hr] at ihr
    simp only [exprCodegen, hl, hr]
    exact CGFrame_trans ihl ihr
  · intro l r st st2 st3 L R hl hr ihl ihr
    rw [hl] at ihl; rw [hr] at ihr
    simp only [exprCodegen, hl, hr]
    exact CGFrame_trans ihl ihr
  · intro l r st st2 st3 L R hl hr ihl ihr
    rw [hl] at ihl; rw [hr] at ihr
    simp only [exprCodegen, hl, hr]
    exact CGFrame_trans ihl ihr
  · intro l r st st2 st3 L R hl hr ihl ihr
    rw [hl] at ihl; rw [hr] at ihr
    simp only [exprCodegen, hl, hr]
    exact CGFrame_trans ihl ihr
  · intro l r st st2 st3 L R hl hr ihl ihr
    rw [hl] at ihl; rw [hr] at ihr
    simp only [exprCodegen, hl, hr]
    exact CGFrame_trans ihl ihr
  · intro op l r st st2 st3 L R h1 h2 h3 h4 h5 hl hr ihl ihr
    rw [hl] at ihl; rw [hr] at ihr
    have hframe : CGFrame st st3 := CGFrame_trans ihl ihr
    simp only [exprCodegen, hl, hr]
    (repeat' split) <;>
      first
        | exact hframe
        | exact CGFrame_trans hframe (CGFrame_logCG _ _)
  · intro op l r st rv st2 hl rv1 st3 hr hno ihl ihr
    rw [hl] at ihl; rw [hr] at ihr
    simp only [exprCodegen, hl, hr]
    have hframe : CGFrame st st3 := CGFrame_trans ihl ihr
    rcases rv with _ | L <;> rcases rv1 with _ | R
    · exact hframe
    · exact hframe
    · exact hframe
    · exact (hno L R rfl rfl).elim
  · intro callee args st h
    simp only [exprCodegen, h]
    exact CGFrame_logCG _ _
  · intro callee args st f hf hlen
    simp only [exprCodegen, hf, if_pos hlen]
    exact CGFrame_logCG _ _
  · intro callee args st f hf hlen st1 hargs ih
    rw [hargs] at ih
    simp only [exprCodegen, hf, if_neg hlen, hargs]
    exact ih
  · intro callee args st f hf hlen vs st1 hargs ih
    rw [hargs] at ih
    simp only [exprCodegen, hf, if_neg hlen, hargs]
    exact ih
  · intro st
    simp only [argsCodegen]
    exact CGFrame_refl st
  · intro a more st st1 ha ih
    rw [ha] at ih
    simp only [argsCodegen, ha]
    exact ih
  · intro a more st v st1 ha st2 hmore ih ihm
    rw [ha] at ih; rw [hmore] at ihm
    simp only [argsCodegen, ha, hmore]
    exact CGFrame_trans ih ihm
  · intro a more st v st1 ha vs st2 hmore ih ihm
    rw [ha] at ih; rw [hmore] at ihm
    simp only [argsCodegen, ha, hmore]
    exact CGFrame_trans ih ihm

/-! ## Helper lemmas: the symbol table at the start of body lowering
(claim C2) -/

theorem alFind_alSet {κ ν : Type} [DecidableEq κ] (m : List (κ × ν)) (k k' : κ) (v : ν) :
    alFind (alSet m k v) k' = if k' = k then some v else alFind m k' := by
  induction m with
  | nil => by_cases h : k' = k <;> simp [alSet, alFind, h]
  | cons e m ih =>
    obtain ⟨k₀, v₀⟩ := e
    by_cases h0 : k = k₀
    · subst h0
      by_cases h : k' = k <;> simp [alSet, alFind, h]
    · by_cases h : k' = k₀
      · subst h
        simp [alSet, h0, alFind, Ne.symm h0]
      · simp [alSet, h0, alFind, h, ih]

theorem argMapGo_isSome (fid : Nat) : ∀ (ns : List String) (i : Nat)
    (nv : List (String × Option Value)) (key : String),
    (alFind (argMapGo fid i ns nv) key).isSome ↔ key ∈ ns ∨ (alFind nv key).isSome := by
  intro ns
  induction ns with
  | nil => intro i nv key; simp [argMapGo]
  | cons n ns ih =>
    intro i nv key
    simp only [argMapGo]
    rw [ih]
    by_cases h : key = n
    · subst h
      simp [alFind_alSet]
    · simp [alFind_alSet, h]

/-- Every entry the argument loop writes is one of the function's
arguments, keyed by its own name. -/
theorem argMapGo_val (fid : Nat) (P : String → Option Value → Prop) :
    ∀ (ns : List String) (i : Nat) (nv : List (String × Option Value)),
    (∀ k w, alFind nv k = some w → P k w) →
    (∀ j k, ns[j]? = some k → P k (some (Value.arg fid (i + j)))) →
    ∀ k w, alFind (argMapGo fid i ns nv) k = some w → P k w := by
  intro ns
  induction ns with
  | nil => intro i nv hnv hns k w h; exact hnv k w h
  | cons n ns ih =>
    intro i nv hnv hns k w h
    refine ih (i + 1) _ ?_ ?_ k w h
    · intro k' w' h'
      rw [alFind_alSet] at h'
      by_cases hk : k' = n
      · rw [if_pos hk] at h'
        cases h'
        subst hk
        have := hns 0 k' (by simp)
        simpa using this
      · rw [if_neg hk] at h'
        exact hnv k' w' h'
    · intro j k' h'
      have := hns (j + 1) k' (by simpa using h')
      have harith : i + (j + 1) = i + 1 + j := by omega
      rw [harith] at this
      exact this

theorem argMapOf_isSome (f : Func) (key : String) :
    (alFind (argMapOf f) key).isSome ↔ key ∈ f.args := by
  unfold argMapOf
  rw [argMapGo_isSome]
  simp [alFind]

theorem argMapOf_val (f : Func) (k : String) (w : Option Value)
    (h : alFind (argMapOf f) k = some w) :
    ∃ j, w = some (Value.arg f.id j) ∧ f.args[j]? = some k := by
  unfold argMapOf at h
  refine argMapGo_val f.id (fun k w => ∃ j, w = some (Value.arg f.id j) ∧ f.args[j]? = some k)
    f.args 0 [] ?_ ?_ k w h
  · intro k' w' h'
    simp [alFind] at h'
  · intro j k' h'
    exact ⟨j, by simp, h'⟩

/-- `setName` uniquification is the identity on duplicate-free parameter
lists. -/
theorem uniquifyGo_eq : ∀ (l seen : List String), l.Nodup → (∀ x ∈ l, x ∉ seen) →
    uniquifyGo seen l = l := by
  intro l
  induction l with
  | nil => intro seen _ _; rfl
  | cons n ns ih =>
    intro seen hnd hdisj
    have hn : n ∉ seen := hdisj n (by simp)
    simp only [uniquifyGo, if_neg hn]
    simp only [List.cons.injEq, true_and]
    refine ih (seen ++ [n]) (List.Nodup.of_cons hnd) ?_
    intro x hx
    simp only [List.mem_append, List.mem_singleton]
    rintro (hxs | rfl)
    · exact hdisj x (by simp [hx]) hxs
    · exact (List.nodup_cons.mp hnd).1 hx

theorem uniquifyArgs_eq_of_nodup (l : List String) (h : l.Nodup) : uniquifyArgs l = l :=
  uniquifyGo_eq l [] h (by simp)

/-! ## Helper lemmas: function-level lowering (claims C4, C5, C10) -/

theorem getFunction_empty (m : List Func) : getFunction m "" = none := by
  simp [getFunction]

theorem freshName_of_not_found (m : List Func) (name : String)
    (h : getFunction m name = none) : freshName m name = name := by
  unfold getFunction at h
  unfold freshName
  by_cases he : name = ""
  · simp [he]
  · rw [if_neg he] at h ⊢
    have : ¬ m.any (fun f => f.name = name) := by
      simp only [List.any_eq_true, not_exists, not_and]
      intro f hf
      have := List.find?_eq_none.mp h f hf
      simpa using this
    rw [if_neg this]

/-- `FunctionAST::codegen` against an already-present function whose body
exists: the redefinition error, and no state change beyond the message. -/
theorem functionCodegen_redef (fn : FuncAST) (st : CGState) (f : Func)
    (hf : getFunction st.module fn.proto.name = some f) (hb : f.body.isSome) :
    functionCodegen fn st = (none, logCG "Function cannot be redefined." st) := by
  unfold functionCodegen
  rw [hf]
  change functionCodegenWith f fn.body st = _
  unfold functionCodegenWith
  rw [if_pos hb]

/-- Anatomy of `functionCodegenWith` for a function with no body yet whose
id does not collide with the rest of the module: on body failure the
function is erased again; on success it is completed in place. -/
theorem functionCodegenWith_anatomy (f : Func) (body : Expr) (st1 : CGState)
    (hb : f.body = none) :
    ((functionCodegenWith f body st1).1 = none →
      (functionCodegenWith f body st1).2.module = st1.module.filter fun g => g.id ≠ f.id)
    ∧ (∀ f', (functionCodegenWith f body st1).1 = some f' →
        (functionCodegenWith f body st1).2.module
          = st1.module.map (fun g => if g.id = f.id then f' else g)
        ∧ f'.body.isSome = true ∧ f'.id = f.id) := by
  unfold functionCodegenWith
  rw [hb]
  simp only [Option.isSome_none, Bool.false_eq_true, if_false]
  set st2 : CGState := { st1 with namedValues := argMapOf f } with hst2
  have hframe := exprCodegen_frame body st2
  cases hcg : exprCodegen body st2 with
  | mk rv st3 =>
    rw [hcg] at hframe
    have hmod3 : st3.module = st1.module := hframe.1
    cases rv with
    | none =>
      constructor
      · intro _
        simp only [hmod3]
      · intro f' h
        simp at h
    | some retVal =>
      constructor
      · intro h
        simp at h
      · intro f' h
        simp only [] at h
        cases h
        refine ⟨by simp only [hmod3], rfl, rfl⟩

/-- Anatomy of `FunctionAST::codegen` when the (mangled) name is not yet
in the module: on body failure the freshly created function is erased
again (the module is exactly restored); on success the module gains
exactly the one completed function. -/
theorem functionCodegen_fresh (fn : FuncAST) (st : CGState)
    (hfind : getFunction st.module fn.proto.name = none)
    (hid : ∀ g ∈ st.module, g.id ≠ st.nextId) :
    ((functionCodegen fn st).1 = none → (functionCodegen fn st).2.module = st.module)
    ∧ (∀ f', (functionCodegen fn st).1 = some f' →
        (functionCodegen fn st).2.module = st.module ++ [f'] ∧ f'.body.isSome = true ∧
        f'.id = st.nextId) := by
  unfold functionCodegen
  rw [hfind]
  simp only [protoCodegen]
  set f : Func :=
    ⟨st.nextId, freshName st.module fn.proto.name, uniquifyArgs fn.proto.args, none⟩ with hfdef
  set st1 : CGState := { st with module := st.module ++ [f], nextId := st.nextId + 1 } with hst1
  have hmod1 : st1.module = st.module ++ [f] := rfl
  have hanat := functionCodegenWith_anatomy f fn.body st1 rfl
  constructor
  · intro h
    have := hanat.1 h
    rw [this, hmod1, List.filter_append]
    have h1 : (st.module.filter fun g => g.id ≠ f.id) = st.module := by
      rw [List.filter_eq_self]
      intro g hg
      simpa using hid g hg
    have h2 : ([f].filter fun g => g.id ≠ f.id) = ([] : List Func) := by simp
    rw [h1, h2, List.append_nil]
  · intro f' h
    obtain ⟨hm, hbs, hident⟩ := hanat.2 f' h
    refine ⟨?_, hbs, hident⟩
    rw [hm, hmod1, List.map_append]
    have h1 : (st.module.map fun g => if g.id = f.id then f' else g) = st.module := by
      have : (st.module.map fun g => if g.id = f.id then f' else g) = st.module.map id := by
        apply List.map_congr_left
        intro g hg
        have hne : g.id ≠ f.id := by simpa using hid g hg
        simp [hne]
      rw [this, List.map_id]
    have h2 : ([f].map fun g => if g.id = f.id then f' else g) = [f'] := by simp
    rw [h1, h2]

/-! ## Helper lemmas: the fatal lexer path (claim C8) -/


theorem countDots_push (s : String) (c : Char) :
    countDots (s.push c) = countDots s + (if c = '.' then 1 else 0) := by
  simp only [countDots, String.push, List.countP_append, List.countP_cons, List.countP_nil]
  by_cases h : c = '.' <;> simp [h]

/-- The `decimalError` flag computed by the number-scanning loop is set
exactly when the scanned literal contains at least two decimal points. -/
theorem readNum_decErr : ∀ (rest : List Char) (c : Char) (hd de : Bool) (acc : String),
    hd = decide (1 ≤ countDots acc) → de = decide (2 ≤ countDots acc) →
    (readNum c rest hd de acc).2.1
      = decide (2 ≤ countDots (readNum c rest hd de acc).1) := by
  intro rest
  induction rest with
  | nil =>
    intro c hd de acc hhd hde
    subst hhd hde
    simp only [readNum, countDots_push]
    by_cases h : c = '.' <;> by_cases h1 : 1 ≤ countDots acc <;>
      by_cases h2 : 2 ≤ countDots acc <;> simp [h, h1, h2] <;> omega
  | cons d rs ih =>
    intro c hd de acc hhd hde
    subst hhd hde
    simp only [readNum]
    split
    · apply ih
      · simp only [countDots_push]
        by_cases h : c = '.' <;> by_cases h1 : 1 ≤ countDots acc <;>
          simp [h, h1] <;> omega
      · simp only [countDots_push]
        by_cases h : c = '.' <;> by_cases h1 : 1 ≤ countDots acc <;>
          by_cases h2 : 2 ≤ countDots acc <;> simp [h, h1, h2] <;> omega
    · simp only [countDots_push]
      by_cases h : c = '.' <;> by_cases h1 : 1 ≤ countDots acc <;>
        by_cases h2 : 2 ≤ countDots acc <;> simp [h, h1, h2] <;> omega


theorem gettokF_fatal_iff : ∀ (fuel : Nat) (l : Option Char) (r : List Char),
    gettokF fuel l r = .fatal ↔ malformedNumberAheadF fuel l r = true := by
  intro fuel
  induction fuel with
  | zero => intro l r; simp [gettokF, malformedNumberAheadF]
  | succ fuel ih =>
    intro l r
    simp only [gettokF, malformedNumberAheadF]
    cases hsw : skipWS l r with
    | mk lc rest' =>
      cases lc with
      | none => simp
      | some c =>
        simp only []
        split
        · (repeat' split) <;> simp
        · split
          case _ hnum =>
            cases hrn : readNum c rest' false false "" with
            | mk str rest2 =>
              cases rest2 with
              | mk e rest3 =>
                have herr : e = decide (2 ≤ countDots str) := by
                  have := readNum_decErr rest' c false false "" (by simp [countDots])
                    (by simp [countDots])
                  rw [hrn] at this
                  exact this
                subst herr
                by_cases hdots : 2 ≤ countDots str
                · simp [hdots]
                · simp [hdots]
          · split
            · split
              · simp
              · exact ih _ _
            · split <;> simp

theorem gettok_fatal_iff (l : Option Char) (r : List Char) :
    gettok l r = .fatal ↔ malformedNumberAhead l r = true :=
  gettokF_fatal_iff _ l r

/-- The anonymous prototype built by `ParseTopLevelExpr` always has the
empty name and no parameters. -/
theorem ParseTopLevelExpr_proto (fuel : Nat) (s : PState) (fn : FuncAST) (s' : PState)
    (h : ParseTopLevelExpr fuel s = .res (some fn) s') : fn.proto = ⟨"", []⟩ := by
  unfold ParseTopLevelExpr at h
  split at h
  · simp at h
  · simp at h
  · simp at h
  case _ e s1 heq =>
    cases h
    rfl

/-! ## Claims -/

/-- Claim C1, counterexample: after lowering `extern foo(x)`, lowering the
top-level call `foo(1,2)` fails with "Unknown function referenced" — not
with the argument-count-mismatch error the claim asserts — because the
call site looks up the unmangled name `foo` while the extern was
registered as `foo_ext`. -/
theorem claim_C1_counterexample :
    (runFinal 100 "extern foo(x)\nfoo(1,2)").map
        (fun d => (d.cg.log, d.out, d.cg.module.map Func.name))
      = some (["Unknown function referenced"], ["Parsed an extern:"], ["foo_ext"])
    ∧ (runFinal 100 "extern foo(x)\nfoo(1,2)").map
        (fun d => decide ("Incorrect # arguments passed" ∈ d.cg.log))
      = some false := ⟨rfl, rfl⟩

/-- Claim C1, amended: with the module as it stands after lowering
`extern foo(x)` (a single declaration named `foo_ext`), lowering any call
to `foo` fails with the unknown-function error and emits nothing: the
state is unchanged except for the error message. -/
theorem claim_C1_theorem (st : CGState) (i : Nat) (args : List Expr)
    (hmod : st.module = [⟨i, "foo_ext", ["x"], none⟩]) :
    exprCodegen (.call "foo" args) st
      = (none, logCG "Unknown function referenced" st) := by
  have hfind : getFunction st.module "foo" = none := by
    rw [hmod]
    simp [getFunction]
  simp only [exprCodegen, hfind]

/-- Claim C1, witness for the amended theorem at the concrete state the
driver reaches after `extern foo(x)`. -/
theorem claim_C1_witness :
    exprCodegen (.call "foo" [.num "1", .num "2"]) ⟨[⟨0, "foo_ext", ["x"], none⟩], [], 1, []⟩
      = (none, logCG "Unknown function referenced"
          ⟨[⟨0, "foo_ext", ["x"], none⟩], [], 1, []⟩) :=
  claim_C1_theorem _ 0 _ rfl

/-- Claim C2, counterexample: lowering `def foo(x) y` fails as expected,
but the failed lookup of `y` default-inserts a null entry, so during (and
after) the lowering of `foo`'s body the symbol table's key set is
`{x, y}`, not exactly `{x}` — refuting "nothing else" and "leaves the
symbol table's key set unchanged". -/
theorem claim_C2_counterexample :
    (runFinal 100 "def foo(x) y").map
        (fun d => (d.cg.namedValues, d.cg.log, d.cg.module))
      = some ([("x", some (.arg 0 0)), ("y", none)], ["Unknown variable name"], []) := rfl

/-- Claim C2, amended: at the start of a function's body lowering the
symbol table holds exactly the function's parameter names (keys are
precisely the parameters, each bound to the corresponding argument value,
independent of any previous function's entries); body lowering never
changes or removes those bindings and can only add default-inserted null
entries; looking up an absent name fails with "Unknown variable name"
while inserting such a null entry for it. -/
theorem claim_C2_theorem :
    (∀ (f : Func) (n : String), (alFind (argMapOf f) n).isSome ↔ n ∈ f.args)
    ∧ (∀ (f : Func) (n : String) (w : Option Value), alFind (argMapOf f) n = some w →
        ∃ j, w = some (Value.arg f.id j) ∧ f.args[j]? = some n)
    ∧ (∀ (e : Expr) (st : CGState), NVExt st.namedValues (exprCodegen e st).2.namedValues)
    ∧ (∀ (name : String) (st : CGState), alFind st.namedValues name = none →
        exprCodegen (.var name) st
          = (none, logCG "Unknown variable name"
              { st with namedValues := st.namedValues ++ [(name, none)] })) := by
  refine ⟨argMapOf_isSome, argMapOf_val, fun e st => (exprCodegen_frame e st).2.2, ?_⟩
  intro name st h
  have : alGetOrInsert st.namedValues name none
      = (none, st.namedValues ++ [(name, none)]) := by
    unfold alGetOrInsert
    rw [h]
  simp only [exprCodegen, this]

/-- Claim C2, witness: the amended theorem at a concrete one-parameter
function and a concrete failed lookup. -/
theorem claim_C2_witness :
    ((alFind (argMapOf ⟨7, "foo_def", ["x"], none⟩) "x").isSome = true)
    ∧ exprCodegen (.var "y") ⟨[], [("x", some (.arg 7 0))], 8, []⟩
        = (none, logCG "Unknown variable name"
            ⟨[], [("x", some (.arg 7 0)), ("y", none)], 8, []⟩) := by
  constructor
  · exact (claim_C2_theorem.1 ⟨7, "foo_def", ["x"], none⟩ "x").mpr (by simp)
  · exact claim_C2_theorem.2.2.2 "y" ⟨[], [("x", some (.arg 7 0))], 8, []⟩ rfl

/-- Claim C3, counterexample: parsing `"(1)"` grows the precedence table:
the lookup at the token `')'` default-inserts the entry `(')', 0)`
(`std::map::operator[]`), so after the parse the table is no longer the
five-entry table the claim says stays fixed. -/
theorem claim_C3_counterexample :
    (parseExprFinalState 50 "(1)").map (fun s => s.prec)
      = some (initPrec ++ [(')', 0)])
    ∧ (parseExprFinalState 50 "(1)").map (fun s => decide (s.prec = initPrec))
      = some false := ⟨rfl, rfl⟩

/-- Claim C3, amended: parsing never removes or rewrites an existing
precedence entry and never adds an entry with nonzero precedence — every
entry it can add is a default-inserted zero entry (meaning "not a binary
operator"), so the five operator entries stay fixed at their installed
values.  Stated for each top-level parse entry point. -/
theorem claim_C3_theorem :
    (∀ fuel s v s', ParseExpression fuel s = .res v s' → PrecExt s.prec s'.prec)
    ∧ (∀ fuel s v s', ParseDefinition fuel s = .res v s' → PrecExt s.prec s'.prec)
    ∧ (∀ fuel s v s', ParseExtern fuel s = .res v s' → PrecExt s.prec s'.prec)
    ∧ (∀ fuel s v s', ParseTopLevelExpr fuel s = .res v s' → PrecExt s.prec s'.prec) :=
  ⟨fun fuel s v s' h => (parse_precExt fuel).2.2.2.2.2 s v s' h,
   fun fuel s v s' h => ParseDefinition_precExt fuel s v s' h,
   fun fuel s v s' h => ParseExtern_precExt fuel s v s' h,
   fun fuel s v s' h => ParseTopLevelExpr_precExt fuel s v s' h⟩

/-- Claim C3, witness: the amended theorem applied to the concrete parse
of `"(1)"`; the operator entries survive (sampled at `'<'`), and the one
new entry is zero-valued. -/
theorem claim_C3_witness :
    PrecExt initPrec (initPrec ++ [(')', 0)])
    ∧ alFind (initPrec ++ [(')', 0)]) '<' = some 10 := by
  constructor
  · exact claim_C3_theorem.1 50
      ⟨.ch '(', some '1', [')'], initPrec, []⟩ (some (.num "1"))
      ⟨.eof, none, [], initPrec ++ [(')', 0)], []⟩ rfl
  · rfl

set_option maxHeartbeats 2000000 in
/-- Claim C4: lowering a `FunctionDefinition` whose mangled name already
has a bodied function in the module fails with the redefinition error and
mutates nothing but the error log; concretely, after `def foo(x) x`
succeeds, `def foo(x) x+1` fails and the module still holds exactly the
first `foo_def` with its original body. -/
theorem claim_C4_theorem :
    (∀ (fn : FuncAST) (st : CGState) (f : Func),
        getFunction st.module fn.proto.name = some f → f.body.isSome = true →
        functionCodegen fn st = (none, logCG "Function cannot be redefined." st))
    ∧ (runFinal 100 "def foo(x) x\ndef foo(x) x+1").map
        (fun d => (d.cg.module, d.cg.log, d.out))
      = some ([⟨0, "foo_def", ["x"], some (.arg 0 0)⟩],
          ["Function cannot be redefined."], ["Parsed a function definition:"]) :=
  ⟨fun fn st f hf hb => functionCodegen_redef fn st f hf hb, rfl⟩

/-- Claim C4, witness: the redefinition theorem at the concrete state
after `def foo(x) x`. -/
theorem claim_C4_witness :
    functionCodegen ⟨⟨ "foo_def", ["x"]⟩, .bin '+' (.var "x") (.num "1")⟩
        ⟨[⟨0, "foo_def", ["x"], some (.arg 0 0)⟩], [("x", some (.arg 0 0))], 1, []⟩
      = (none, logCG "Function cannot be redefined."
          ⟨[⟨0, "foo_def", ["x"], some (.arg 0 0)⟩], [("x", some (.arg 0 0))], 1, []⟩) :=
  claim_C4_theorem.1 _ _ ⟨0, "foo_def", ["x"], some (.arg 0 0)⟩ rfl rfl

/-- Claim C5, counterexample: lowering `extern foo(x)` is a lowering
operation after which the module does contain a function with a missing
body (the declaration `foo_ext`), refuting the claim's blanket "the
module never contains a function with a missing or invalid body". -/
theorem claim_C5_counterexample :
    (runFinal 100 "extern foo(x)").map
        (fun d => d.cg.module.map (fun f => (f.name, f.body)))
      = some [("foo_ext", none)] := rfl

/-- Claim C5, amended: if lowering the body of a `FunctionDefinition`
(fresh mangled name, fresh id) fails, the partially constructed function
is removed and the module is exactly restored; on success the module
gains exactly the one completed (bodied) function — so no function
originating from a `FunctionDefinition` is ever retained with a missing
or invalid body (bodyless module entries can come only from prototype
declarations such as `extern`). -/
theorem claim_C5_theorem :
    ∀ (fn : FuncAST) (st : CGState),
      getFunction st.module fn.proto.name = none →
      (∀ g ∈ st.module, g.id ≠ st.nextId) →
      ((functionCodegen fn st).1 = none → (functionCodegen fn st).2.module = st.module)
      ∧ (∀ f', (functionCodegen fn st).1 = some f' →
          (functionCodegen fn st).2.module = st.module ++ [f'] ∧ f'.body.isSome = true) :=
  fun fn st h1 h2 =>
    ⟨(functionCodegen_fresh fn st h1 h2).1,
     fun f' h => ⟨((functionCodegen_fresh fn st h1 h2).2 f' h).1,
       ((functionCodegen_fresh fn st h1 h2).2 f' h).2.1⟩⟩

/-- Claim C5, witness: the rollback at the concrete failing definition
`def foo(x) y` in the empty module. -/
theorem claim_C5_witness :
    (functionCodegen ⟨⟨ "foo_def", ["x"]⟩, .var "y"⟩ initCG).1 = none
    ∧ (functionCodegen ⟨⟨ "foo_def", ["x"]⟩, .var "y"⟩ initCG).2.module = [] := by
  refine ⟨rfl, ?_⟩
  exact (claim_C5_theorem ⟨⟨ "foo_def", ["x"]⟩, .var "y"⟩ initCG rfl (by simp [initCG])).1 rfl

/-- Claim C6: the parser resolves precedence per the fixed table —
`"1+2*3"` parses as `1 + (2*3)` and `"1<2+3"` as `1 < (2+3)`. -/
theorem claim_C6_theorem :
    parseExpressionFrom 50 "1+2*3"
      = some (.bin '+' (.num "1") (.bin '*' (.num "2") (.num "3")))
    ∧ parseExpressionFrom 50 "1<2+3"
      = some (.bin '<' (.num "1") (.bin '+' (.num "2") (.num "3"))) := ⟨rfl, rfl⟩

/-- Claim C7: equal-precedence operators fold left-associatively —
`"a+b+c"` parses as `(a+b)+c`. -/
theorem claim_C7_theorem :
    parseExpressionFrom 50 "a+b+c"
      = some (.bin '+' (.bin '+' (.var "a") (.var "b")) (.var "c")) := rfl

/-- Claim C8: tokenizing `"1.2.3"` takes the fatal path (process exit, no
token), and in general the tokenizer is fatal exactly when the token
being scanned (after whitespace and transparent comments) is a numeric
literal with more than one decimal point — so no other lexical situation
terminates the process. -/
theorem claim_C8_theorem :
    gettok (some ' ') "1.2.3".data = .fatal
    ∧ (∀ (l : Option Char) (r : List Char),
        gettok l r = .fatal ↔ malformedNumberAhead l r = true) :=
  ⟨rfl, gettok_fatal_iff⟩

/-- Claim C8, witness: the characterization applied at the concrete fatal
input. -/
theorem claim_C8_witness : malformedNumberAhead (some ' ') "1.2.3".data = true :=
  (claim_C8_theorem.2 _ _).mp claim_C8_theorem.1

set_option maxHeartbeats 2000000 in
/-- Claim C9: every top-level handler reacts to a parse failure by
discarding exactly one additional token (one `getNextToken`) and nothing
else — codegen state and output are untouched; concretely, the stream
`"def 1 42"` reports one parse error for the malformed definition and
then lowers the following valid top-level expression normally. -/
theorem claim_C9_theorem :
    (∀ (fuel : Nat) (d : DState) (ps' : PState),
        ParseDefinition fuel d.ps = .res none ps' →
        HandleDefinition fuel d
          = match getNextToken ps' with
            | none => DRes.fatal
            | some ps2 => DRes.ok ⟨ps2, d.cg, d.out⟩)
    ∧ (∀ (fuel : Nat) (d : DState) (ps' : PState),
        ParseExtern fuel d.ps = .res none ps' →
        HandleExtern fuel d
          = match getNextToken ps' with
            | none => DRes.fatal
            | some ps2 => DRes.ok ⟨ps2, d.cg, d.out⟩)
    ∧ (∀ (fuel : Nat) (d : DState) (ps' : PState),
        ParseTopLevelExpr fuel d.ps = .res none ps' →
        HandleTopLevelExpression fuel d
          = match getNextToken ps' with
            | none => DRes.fatal
            | some ps2 => DRes.ok ⟨ps2, d.cg, d.out⟩)
    ∧ (runFinal 100 "def 1 42").map (fun d => (d.ps.log, d.cg.log, d.out, d.cg.module))
      = some (["Expected function name in prototype"], [],
          ["Parsed a top-level expression:"], []) := by
  refine ⟨?_, ?_, ?_, rfl⟩
  · intro fuel d ps' h
    unfold HandleDefinition
    rw [h]
  · intro fuel d ps' h
    unfold HandleExtern
    rw [h]
  · intro fuel d ps' h
    unfold HandleTopLevelExpression
    rw [h]

/-- Claim C9, witness: the one-token-recovery equation at the concrete
state reached after priming `"def 1 42"`. -/
theorem claim_C9_witness :
    HandleDefinition 50
        ⟨⟨.kdef, some ' ', ['1', ' ', '4', '2'], initPrec, []⟩, initCG, []⟩
      = DRes.ok ⟨⟨.num "42", none, [], initPrec,
          ["Expected function name in prototype"]⟩, initCG, []⟩ :=
  (claim_C9_theorem.1 50 ⟨⟨.kdef, some ' ', ['1', ' ', '4', '2'], initPrec, []⟩, initCG, []⟩
    ⟨.num "1", some ' ', ['4', '2'], initPrec,
      ["Expected function name in prototype"]⟩ rfl).trans rfl

set_option maxHeartbeats 2000000 in
/-- Claim C10: a top-level expression handler never changes the module's
function list — the anonymous function is erased right after a successful
lowering (and a failed lowering already erased it), so at end of input
the module holds only `def` and `extern` functions; concretely the run
`"1+2"` then `"def foo(x) x"` ends with exactly the bodied `foo_def`. -/
theorem claim_C10_theorem :
    (∀ (fuel : Nat) (d : DState) (d' : DState),
        (∀ g ∈ d.cg.module, g.id ≠ d.cg.nextId) →
        HandleTopLevelExpression fuel d = .ok d' → d'.cg.module = d.cg.module)
    ∧ (runFinal 40 "1+2\ndef foo(x) x").map
        (fun d => d.cg.module.map (fun f => (f.name, f.body.isSome)))
      = some [("foo_def", true)] := by
  refine ⟨?_, rfl⟩
  intro fuel d d' hid h
  unfold HandleTopLevelExpression at h
  split at h
  · simp at h
  · simp at h
  case _ fnAST ps' heq =>
    have hproto := ParseTopLevelExpr_proto _ _ _ _ heq
    have hfind : getFunction d.cg.module fnAST.proto.name = none := by
      rw [hproto]
      exact getFunction_empty _
    have hfr := functionCodegen_fresh fnAST d.cg hfind hid
    split at h
    case _ fnIR cg' hcg =>
      cases h
      have h2 := hfr.2 fnIR (by rw [hcg])
      rw [hcg] at h2
      simp only []
      rw [h2.1, List.filter_append]
      have h1 : (d.cg.module.filter fun g => g.id ≠ fnIR.id) = d.cg.module := by
        rw [List.filter_eq_self]
        intro g hg
        have := hid g hg
        rw [h2.2.2]
        simpa using this
      have h3 : ([fnIR].filter fun g => g.id ≠ fnIR.id) = ([] : List Func) := by simp
      rw [h1, h3, List.append_nil]
    case _ cg' hcg =>
      cases h
      have h1 := hfr.1 (by rw [hcg])
      rw [hcg] at h1
      exact h1
  case _ ps' heq =>
    split at h
    · simp at h
    case _ ps2 hn =>
      cases h
      rfl

/-- Claim C10, witness: the handler theorem at a concrete state lowering
the top-level expression `5` over the empty module. -/
theorem claim_C10_witness :
    HandleTopLevelExpression 50 ⟨⟨.num "5", none, [], initPrec, []⟩, initCG, []⟩
      = DRes.ok ⟨⟨.eof, none, [], initPrec, []⟩, ⟨[], [], 1, []⟩,
          ["Parsed a top-level expression:"]⟩
    ∧ (⟨[], [], 1, []⟩ : CGState).module = initCG.module := by
  refine ⟨rfl, ?_⟩
  exact claim_C10_theorem.1 50 ⟨⟨.num "5", none, [], initPrec, []⟩, initCG, []⟩
    ⟨⟨.eof, none, [], initPrec, []⟩, ⟨[], [], 1, []⟩, ["Parsed a top-level expression:"]⟩
    (by simp [initCG]) rfl
